import Mathlib

/-!
Verification of the GitHub calendar MCP server's data-transformation core
(`src/index.js`): calendar-event extraction from project items, team-workload
aggregation and ranking, calendar-grid projection, the GraphQL-to-search
fetch fallback, and the tool-call dispatch boundary.

The JavaScript code is shallowly embedded: JS `Date` values are modelled as
an integer count of milliseconds since the Unix epoch (time zone fixed to
UTC) or an explicit invalid marker (JS "Invalid Date", whose time value is
NaN); JS `null` fields are `Option`; the mutable accumulation loops are
folds.
-/

/-! ## JS dates

A JS `Date` holds either a finite millisecond timestamp or NaN ("Invalid
Date").  Relational comparisons on dates coerce to the time value; any
comparison against NaN is false.  `getTime() !== getTime()` inequality is
true whenever either side is NaN (NaN is unequal to everything, itself
included). -/

inductive JSDate where
  | valid (millis : Int)
  | invalid
deriving DecidableEq

/-- Time value of a date: `none` stands for NaN. -/
def JSDate.toNum : JSDate → Option Int
  | .valid t => some t
  | .invalid => none

/-- JS `a < b` on two dates (false when either side is NaN). -/
def jsLtD (a b : JSDate) : Bool :=
  match a.toNum, b.toNum with
  | some x, some y => decide (x < y)
  | _, _ => false

/-- JS `a > b` on two dates. -/
def jsGtD (a b : JSDate) : Bool :=
  match a.toNum, b.toNum with
  | some x, some y => decide (x > y)
  | _, _ => false

/-- JS `a <= b` on two dates. -/
def jsLeD (a b : JSDate) : Bool :=
  match a.toNum, b.toNum with
  | some x, some y => decide (x ≤ y)
  | _, _ => false

/-- JS `a >= b` on two dates. -/
def jsGeD (a b : JSDate) : Bool :=
  match a.toNum, b.toNum with
  | some x, some y => decide (x ≥ y)
  | _, _ => false

/-- JS `a.getTime() !== b.getTime()` — true whenever either time value is
NaN, since NaN is strictly unequal to everything including itself. -/
def jsTimeNe (a b : JSDate) : Bool :=
  match a.toNum, b.toNum with
  | some x, some y => decide (x ≠ y)
  | _, _ => true

/-! ## Civil-calendar arithmetic

Conversions between (year, month, day) triples and day counts since
1970-01-01, the standard era-based algorithms.  These model the calendar
underlying the JS `Date` builtin and the date-fns helpers, with the time
zone fixed to UTC. -/

def msPerDay : Int := 86400000

def isLeapYear (y : Int) : Bool :=
  y % 4 = 0 && (y % 100 ≠ 0 || y % 400 = 0)

def daysInMonth (y m : Int) : Int :=
  if m = 2 then (if isLeapYear y then 29 else 28)
  else if m = 4 || m = 6 || m = 9 || m = 11 then 30
  else 31

/-- Days since 1970-01-01 of the civil date (y, m, d). -/
def daysFromCivil (y m d : Int) : Int :=
  let y2 : Int := if m ≤ 2 then y - 1 else y
  let era : Int := y2 / 400
  let yoe : Int := y2 - era * 400
  let doy : Int := (153 * (m + (if m > 2 then (-3 : Int) else 9)) + 2) / 5 + d - 1
  let doe : Int := yoe * 365 + yoe / 4 - yoe / 100 + doy
  era * 146097 + doe - 719468

/-- Civil date (y, m, d) of a day count since 1970-01-01. -/
def civilFromDays (z : Int) : Int × Int × Int :=
  let z2 : Int := z + 719468
  let era : Int := z2 / 146097
  let doe : Int := z2 - era * 146097
  let yoe : Int := (doe - doe / 1460 + doe / 36524 - doe / 146096) / 365
  let y : Int := yoe + era * 400
  let doy : Int := doe - (365 * yoe + yoe / 4 - yoe / 100)
  let mp : Int := (5 * doy + 2) / 153
  let d : Int := doy - (153 * mp + 2) / 5 + 1
  let m : Int := mp + (if mp < 10 then 3 else (-9 : Int))
  (y + (if m ≤ 2 then 1 else 0), m, d)

/-- Day count since the epoch holding a given instant (floor division, as
produced by truncating an instant to local — here UTC — midnight). -/
def dayNumOf (t : Int) : Int := t / msPerDay

/-! ## Parsing date strings

The code builds dates with `new Date(string)`.  The model covers the
ISO-8601 calendar-date form `YYYY-MM-DD` (the format carried by project
date fields, issue-body markers, and milestone due dates); a string not of
that shape — or one naming a nonexistent calendar day — yields Invalid
Date, exactly as V8 treats malformed ISO dates. -/

def digitVal (c : Char) : Option Int :=
  if c.isDigit then some ((c.toNat : Int) - 48) else none

def jsDate (s : String) : JSDate :=
  match s.toList with
  | [y1, y2, y3, y4, '-', m1, m2, '-', d1, d2] =>
    match digitVal y1, digitVal y2, digitVal y3, digitVal y4,
          digitVal m1, digitVal m2, digitVal d1, digitVal d2 with
    | some a, some b, some c, some d, some e, some f, some g, some h =>
      let y := a * 1000 + b * 100 + c * 10 + d
      let m := e * 10 + f
      let day := g * 10 + h
      if 1 ≤ m && m ≤ 12 && 1 ≤ day && day ≤ daysInMonth y m then
        .valid (daysFromCivil y m day * msPerDay)
      else .invalid
    | _, _, _, _, _, _, _, _ => .invalid
  | _ => .invalid

/-- Millisecond timestamp of a civil date at UTC midnight; abbreviation used
in theorem statements about concrete dates. -/
def civilMs (y m d : Int) : Int := daysFromCivil y m d * msPerDay

/-! ## Data model

The normalized issue and project-item shapes produced by the two fetch
paths (`fetchProjectItemsGraphQL` / `fetchIssuesByLabel`), and the derived
`CalendarEvent` shape.  Fields that no claim touches and that the
transformation pipeline merely copies (label ids and descriptions, author)
are omitted. -/

structure Assignee where
  login : String
  avatar_url : String
deriving DecidableEq

structure Label where
  name : String
  color : String
deriving DecidableEq

structure Milestone where
  title : String
  description : String
  due_on : Option String
deriving DecidableEq

structure Issue where
  number : Int
  title : String
  body : String
  state : String
  created_at : String
  html_url : String
  labels : List Label
  assignees : List Assignee
  milestone : Option Milestone
deriving DecidableEq

/-- One project field value: a name tag plus at most one of the four
payload kinds (`date`, `text`, single-select `name`, `number`), each
nullable.  `selectName` renders the JS property `name`. -/
structure FieldValue where
  fieldName : String
  date : Option String
  text : Option String
  selectName : Option String
  number : Option Int
deriving DecidableEq

structure ProjectItem where
  id : String
  content : Issue
  fieldValues : List FieldValue
deriving DecidableEq

structure EventLabel where
  name : String
  color : String
deriving DecidableEq

structure CalendarEvent where
  id : String
  title : String
  startDate : Option JSDate
  endDate : Option JSDate
  url : String
  labels : List EventLabel
  assignees : List Assignee
  status : String
  projectStatus : Option String
  type : String
deriving DecidableEq

/-! ## Event extraction (`transformToCalendarEvents`, src/index.js:313-380) -/

/-- JS `String.prototype.toLowerCase`, modelled per character (ASCII tags
such as field names are all that flow through it). -/
def strLower (s : String) : String := (s.toList.map Char.toLower).asString

/-- JS truthiness of a nullable string (null and the empty string are
falsy). -/
def truthyStr : Option String → Bool
  | none => false
  | some s => !(s == "")

/-- Substring containment on character lists (JS `String.includes`). -/
def charsContain (needle : List Char) : List Char → Bool
  | [] => needle.isEmpty
  | c :: rest => needle.isPrefixOf (c :: rest) || charsContain needle rest

/-- JS `s.includes(sub)`. -/
def strIncludes (s sub : String) : Bool := charsContain sub.toList s.toList

/-- One step of the `fieldValues.nodes.forEach` scan: the accumulator is
the mutable triple (startDate, endDate, projectStatus), each slot
overwritten whenever a later field value matches it. -/
def fieldScanStep (acc : Option JSDate × Option JSDate × Option String)
    (fv : FieldValue) : Option JSDate × Option JSDate × Option String :=
  let fieldName := strLower fv.fieldName
  let s := acc.1
  let e := acc.2.1
  let ps := acc.2.2
  if strIncludes fieldName "start" && truthyStr fv.date then
    (some (jsDate (fv.date.getD "")), e, ps)
  else if (strIncludes fieldName "end" || strIncludes fieldName "due") && truthyStr fv.date then
    (s, some (jsDate (fv.date.getD "")), ps)
  else if (strIncludes fieldName "status" || strIncludes fieldName "state"
        || strIncludes fieldName "progress") && truthyStr fv.selectName then
    (s, e, fv.selectName)
  else
    acc

/-! Issue-body marker extraction: the regex
`\*\*Start Date:\*\*.*?\(([^)]+)\)` (and the End Date twin).  After a
literal marker occurrence, the lazy `.*?` walks forward over non-line-
terminator characters looking for a `(`; the capture `[^)]+` is the
nonempty run of non-`)` characters that must be closed by `)`.  If no
completion exists for one marker occurrence the match is retried from the
next occurrence (leftmost-match semantics). -/

/-- JS `.` matches any character except a line terminator. -/
def isLineTerm (c : Char) : Bool :=
  c = '\n' || c = '\r' || c.toNat = 8232 || c.toNat = 8233

/-- Capture attempt for `([^)]+)\)` given the characters following a `(`:
the maximal nonempty run of non-`)` characters, valid only when a `)`
actually follows it. -/
def parenCapture (cs : List Char) : Option (List Char) :=
  let run := cs.takeWhile (fun c => c ≠ ')')
  if run.isEmpty then none
  else if run.length < cs.length then some run else none

/-- The `.*?\(([^)]+)\)` tail: lazily extend over non-line-terminator
characters; at each `(` try the capture, and on failure keep walking (the
`(` itself is consumed by `.*?`). -/
def lazyParen : List Char → Option (List Char)
  | [] => none
  | c :: rest =>
    if c = '(' then
      match parenCapture rest with
      | some cap => some cap
      | none => lazyParen rest
    else if isLineTerm c then none
    else lazyParen rest

/-- Leftmost match of `marker.*?\(([^)]+)\)`: try every occurrence of the
literal marker from the left, returning the first one whose tail
completes. -/
def findMarkerCapture (marker : List Char) : List Char → Option (List Char)
  | [] => none
  | c :: rest =>
    if marker.isPrefixOf (c :: rest) then
      match lazyParen ((c :: rest).drop marker.length) with
      | some cap => some cap
      | none => findMarkerCapture marker rest
    else findMarkerCapture marker rest

/-- Capture of `body.match(/\*\*Start Date:\*\*.*?\(([^)]+)\)/)`. -/
def bodyStartCapture (body : String) : Option String :=
  (findMarkerCapture "**Start Date:**".toList body.toList).map List.asString

/-- Capture of `body.match(/\*\*End Date:\*\*.*?\(([^)]+)\)/)`. -/
def bodyEndCapture (body : String) : Option String :=
  (findMarkerCapture "**End Date:**".toList body.toList).map List.asString

/-- Truthiness of `issue.milestone?.due_on`. -/
def truthyMilestoneDue : Option Milestone → Bool
  | none => false
  | some ms => truthyStr ms.due_on

/-- Body of the `items.map` callback in `transformToCalendarEvents`:
resolve the date slots through the field-value scan, the issue-body
markers, the `created_at` fallback for the start and the milestone due
date for the end, then assemble the event. -/
def transformOneItem (item : ProjectItem) : CalendarEvent :=
  let issue := item.content
  let scanned := item.fieldValues.foldl fieldScanStep (none, none, none)
  let s0 := scanned.1
  let e0 := scanned.2.1
  let projectStatus := scanned.2.2
  let sm := bodyStartCapture issue.body
  let em := bodyEndCapture issue.body
  let s1 := if !s0.isSome || !e0.isSome then
      (if sm.isSome && !s0.isSome then some (jsDate (sm.getD "")) else s0)
    else s0
  let e1 := if !s0.isSome || !e0.isSome then
      (if em.isSome && !e0.isSome then some (jsDate (em.getD "")) else e0)
    else e0
  let s2 := if !s1.isSome then some (jsDate issue.created_at) else s1
  let e2 := if !e1.isSome && truthyMilestoneDue issue.milestone then
      some (jsDate ((issue.milestone.bind Milestone.due_on).getD ""))
    else e1
  { id := toString issue.number
    title := issue.title
    startDate := s2
    endDate := e2
    url := issue.html_url
    labels := issue.labels.map (fun l => { name := l.name, color := "#" ++ l.color })
    assignees := issue.assignees.map (fun a => { login := a.login, avatar_url := a.avatar_url })
    status := issue.state
    projectStatus := projectStatus
    type := "issue" }

/-- `transformToCalendarEvents` (src/index.js:313-380): map every item to
an event, then keep only events whose `startDate` is non-null. -/
def transformToCalendarEvents (items : List ProjectItem) : List CalendarEvent :=
  (items.map transformOneItem).filter (fun ev => ev.startDate.isSome)

/-! ## Workload aggregation (`analyzeTeamWorkload`, src/index.js:388-424)

The JS function reads `now` internally via `new Date()`; the model takes
the reference instant as a parameter.  The `teamWorkload` object keyed by
login is an insertion-ordered association list (logins are GitHub user
names, which are not array indices, so JS object enumeration order is
insertion order). -/

structure WorkloadEntry where
  login : String
  avatar_url : String
  activeIssues : Nat
  upcomingIssues : Nat
  overdueIssues : Nat
  totalWorkload : Nat
deriving DecidableEq

/-- The overdue test `event.endDate && event.endDate < now` (a Date object
is truthy even when invalid, so truthiness is exactly non-nullness). -/
def eventOverdue (now : Int) (ev : CalendarEvent) : Bool :=
  match ev.endDate with
  | some d => jsLtD d (.valid now)
  | none => false

/-- The upcoming test `event.startDate > now`; JS coerces a null operand of
a relational comparison to the number 0. -/
def eventUpcoming (now : Int) (ev : CalendarEvent) : Bool :=
  match ev.startDate with
  | some d => jsGtD d (.valid now)
  | none => decide ((0 : Int) > now)

/-- The four `++` statements applied to one member for one event. -/
def bumpMember (now : Int) (ev : CalendarEvent) (w : WorkloadEntry) : WorkloadEntry :=
  { w with
    activeIssues := w.activeIssues + 1
    totalWorkload := w.totalWorkload + 1
    overdueIssues := w.overdueIssues + (if eventOverdue now ev then 1 else 0)
    upcomingIssues := w.upcomingIssues + (if eventUpcoming now ev then 1 else 0) }

/-- The zero-initialised entry created when a login is first seen. -/
def freshEntry (a : Assignee) : WorkloadEntry :=
  { login := a.login, avatar_url := a.avatar_url
    activeIssues := 0, upcomingIssues := 0, overdueIssues := 0, totalWorkload := 0 }

/-- Process one assignee of one event: create the login's entry if absent
(appended, as JS object insertion), then apply the increments to it. -/
def addAssignee (now : Int) (ev : CalendarEvent) (a : Assignee) :
    List WorkloadEntry → List WorkloadEntry
  | [] => [bumpMember now ev (freshEntry a)]
  | w :: ws =>
    if w.login = a.login then bumpMember now ev w :: ws
    else w :: addAssignee now ev a ws

/-- Process one event: closed events are skipped before any counter is
touched; otherwise every assignee of the event is processed in order. -/
def processEvent (now : Int) (st : List WorkloadEntry) (ev : CalendarEvent) :
    List WorkloadEntry :=
  if ev.status = "closed" then st
  else ev.assignees.foldl (fun st a => addAssignee now ev a st) st

/-- The `teamWorkload` table after the `events.forEach` loop, in encounter
(insertion) order — the `Object.values(teamWorkload)` list before sorting. -/
def teamWorkloadTable (events : List CalendarEvent) (now : Int) : List WorkloadEntry :=
  events.foldl (processEvent now) []

/-- Stable ascending insertion by `totalWorkload`: the new element goes
after every element whose key is less than or equal to its own. -/
def insertRanked (w : WorkloadEntry) : List WorkloadEntry → List WorkloadEntry
  | [] => [w]
  | v :: vs =>
    if w.totalWorkload < v.totalWorkload then w :: v :: vs
    else v :: insertRanked w vs

/-- Stable sort by ascending `totalWorkload`, modelling
`.sort((a, b) => a.totalWorkload - b.totalWorkload)` (ECMAScript
`Array.prototype.sort` is stable, and for a consistent comparator the
stable ascending order is unique, so insertion sort realises it). -/
def sortByWorkload (l : List WorkloadEntry) : List WorkloadEntry :=
  l.foldl (fun acc w => insertRanked w acc) []

/-- `analyzeTeamWorkload`: fold the events into the per-login table, then
return the entries sorted ascending by `totalWorkload`. -/
def analyzeTeamWorkload (events : List CalendarEvent) (now : Int) : List WorkloadEntry :=
  sortByWorkload (teamWorkloadTable events now)

/-- The `find_best_assignee` recommendation (src/index.js:1284-1299):
`workloadAnalysis[0]` of the already-sorted ranking, absent when the
ranking is empty. -/
def bestAssignee (events : List CalendarEvent) (now : Int) : Option WorkloadEntry :=
  (analyzeTeamWorkload events now).head?

/-! ## Calendar-grid projection (`createCalendarUI`, src/index.js:427-460)

Only the `eventsByDate` computation is modelled; the remainder of
`createCalendarUI` is HTML templating over it.  The date-fns helpers are
modelled at UTC: `startOfMonth` is the first instant of the month,
`endOfMonth` its last millisecond, `eachDayOfInterval` the midnights from
the day of the interval start while they do not exceed the interval end,
and `format(d, 'yyyy-MM-dd')` the zero-padded civil day key. -/

def startOfMonthMs (t : Int) : Int :=
  let c := civilFromDays (dayNumOf t)
  daysFromCivil c.1 c.2.1 1 * msPerDay

def endOfMonthMs (t : Int) : Int :=
  let c := civilFromDays (dayNumOf t)
  daysFromCivil c.1 c.2.1 (daysInMonth c.1 c.2.1) * msPerDay + (msPerDay - 1)

/-- date-fns `isSameMonth` on a possibly invalid date and a (valid)
reference instant: same civil year and month; false on Invalid Date. -/
def sameMonthD (d : JSDate) (cur : Int) : Bool :=
  match d with
  | .valid t =>
    let a := civilFromDays (dayNumOf t)
    let b := civilFromDays (dayNumOf cur)
    a.1 = b.1 && a.2.1 = b.2.1
  | .invalid => false

/-- Inclusive run of day numbers, empty when `lo > hi`. -/
def dayRange (lo hi : Int) : List Int :=
  (List.range (hi + 1 - lo).toNat).map (fun i => lo + i)

/-- The `format(day, 'yyyy-MM-dd')` key of a day number. -/
def pad2 (n : Int) : String := if n < 10 then "0" ++ toString n else toString n

def pad4 (n : Int) : String :=
  if n < 10 then "000" ++ toString n
  else if n < 100 then "00" ++ toString n
  else if n < 1000 then "0" ++ toString n
  else toString n

def dayKey (d : Int) : String :=
  let c := civilFromDays d
  pad4 c.1 ++ "-" ++ pad2 c.2.1 ++ "-" ++ pad2 c.2.2

/-- date-fns `eachDayOfInterval` between two instants, as midnights
represented by their day numbers: from the day of `a` while the midnight
does not exceed `b`.  (date-fns rejects a reversed interval; the model
returns the empty list there, a case no well-formed event reaches.) -/
def eachDayNums (a b : Int) : List Int := dayRange (dayNumOf a) (dayNumOf b)

/-- Day keys one event is filed under by the `events.forEach` grouping in
`createCalendarUI` (src/index.js:434-460): the multi-day branch clips
[startDate, endDate] to the month and enumerates the clipped days; the
single-day branch files the event under its start date when that date lies
in the current month.  (With a non-null `endDate` and a null `startDate`
the JS code would throw on `null.getTime()`; the pipeline never produces
such an event, and the model returns no keys there.) -/
def eventDateKeys (cur : Int) (ev : CalendarEvent) : List String :=
  let monthStart := startOfMonthMs cur
  let monthEnd := endOfMonthMs cur
  match ev.endDate, ev.startDate with
  | some e, some s =>
    if jsTimeNe s e then
      let eventStart : JSDate := if jsGtD s (.valid monthStart) then s else .valid monthStart
      let eventEnd : JSDate := if jsLtD e (.valid monthEnd) then e else .valid monthEnd
      if jsLeD eventStart (.valid monthEnd) && jsGeD eventEnd (.valid monthStart) then
        match eventStart, eventEnd with
        | .valid a, .valid b => (eachDayNums a b).map dayKey
        | _, _ => []
      else []
    else
      match s with
      | .valid t => if sameMonthD (.valid t) cur then [dayKey (dayNumOf t)] else []
      | .invalid => []
  | some _, none => []
  | none, some s =>
    match s with
    | .valid t => if sameMonthD (.valid t) cur then [dayKey (dayNumOf t)] else []
    | .invalid => []
  | none, none => []

/-- Append an event to the bucket of one key, creating the bucket at the
end on first touch (JS object insertion order). -/
def pushBucket (k : String) (ev : CalendarEvent) :
    List (String × List CalendarEvent) → List (String × List CalendarEvent)
  | [] => [(k, [ev])]
  | (k2, evs) :: rest =>
    if k2 = k then (k2, evs ++ [ev]) :: rest
    else (k2, evs) :: pushBucket k ev rest

/-- The `eventsByDate` day-to-events mapping of `createCalendarUI`. -/
def eventsByDate (events : List CalendarEvent) (cur : Int) :
    List (String × List CalendarEvent) :=
  events.foldl (fun m ev => (eventDateKeys cur ev).foldl (fun m k => pushBucket k ev m) m) []

/-! ## Fetch fallback (`fetchProjectItems`, src/index.js:137-147, and
`fetchIssuesByLabel`, src/index.js:240-311)

The two upstream transports are abstracted as oracles: the GraphQL path as
one `Except` outcome, the search path as the sequence of per-page
responses its sequential pagination loop would receive (an exhausted
sequence ends the loop).  `fetchIssuesByLabel` never throws: a page error
is caught, logged and breaks the loop, returning whatever was accumulated;
a short or empty page ends the loop normally. -/

def searchPerPage : Nat := 100

def searchLoop : List (Except String (List ProjectItem)) → List ProjectItem → List ProjectItem
  | [], acc => acc
  | r :: rest, acc =>
    match r with
    | .error _ => acc
    | .ok [] => acc
    | .ok items =>
      if items.length = searchPerPage then searchLoop rest (acc ++ items)
      else acc ++ items

def fetchIssuesByLabel (pages : List (Except String (List ProjectItem))) : List ProjectItem :=
  searchLoop pages []

/-- `fetchProjectItems`: try the GraphQL path; on any failure fall back —
exactly once — to the label search, whose result is always a success. -/
def fetchProjectItems (graphqlResult : Except String (List ProjectItem))
    (pages : List (Except String (List ProjectItem))) : Except String (List ProjectItem) :=
  match graphqlResult with
  | .ok items => .ok items
  | .error _ => .ok (fetchIssuesByLabel pages)

/-! ## Tool-call dispatch boundary (`setupToolHandlers`, src/index.js:1190-1396)

The CallTool handler is a switch on the operation name wrapped in a
try/catch.  The five tool branches (which perform upstream fetches and
rendering) are abstracted as an oracle from the tool name to either a
response or a thrown error message; the default branch throws
`Unknown tool: <name>`; the catch converts any thrown error into a text
content block `Error: <message>` flagged with `isError`.  The handler is a
total function into `ToolResponse`, so no exception crosses the boundary. -/

inductive ContentBlock where
  | text (s : String)
  | uiResource (uri : String) (html : String)
deriving DecidableEq

structure ToolResponse where
  content : List ContentBlock
  isError : Bool
deriving DecidableEq

def knownToolNames : List String :=
  ["get_team_status", "get_person_schedule", "analyze_workload",
   "find_best_assignee", "get_calendar_events"]

def callToolHandler (impl : String → Except String ToolResponse) (name : String) :
    ToolResponse :=
  let attempt : Except String ToolResponse :=
    if name ∈ knownToolNames then impl name
    else .error ("Unknown tool: " ++ name)
  match attempt with
  | .ok r => r
  | .error msg => { content := [ContentBlock.text ("Error: " ++ msg)], isError := true }

/-! ## Derived predicates and specification-side counts

These definitions restate, in declarative form, what the spec says the
imperative loops compute; the theorems below relate them to the code-side
folds. -/

/-- A field value that the scan's first branch consumes: name containing
"start" (case-insensitive) and a truthy date payload. -/
def isStartField (fv : FieldValue) : Bool :=
  strIncludes (strLower fv.fieldName) "start" && truthyStr fv.date

/-- A field value that the scan's second branch consumes: not a start
match (the branches are an if/else chain), name containing "end" or "due",
and a truthy date payload. -/
def isEndField (fv : FieldValue) : Bool :=
  !(isStartField fv)
  && (strIncludes (strLower fv.fieldName) "end" || strIncludes (strLower fv.fieldName) "due")
  && truthyStr fv.date

/-- The four counters of a workload entry, as a tuple
(active, upcoming, overdue, total). -/
def entryCounts (w : WorkloadEntry) : Nat × Nat × Nat × Nat :=
  (w.activeIssues, w.upcomingIssues, w.overdueIssues, w.totalWorkload)

/-- Counters of the entry stored under a login, if any. -/
def lookupCounts (login : String) (st : List WorkloadEntry) : Option (Nat × Nat × Nat × Nat) :=
  (st.find? (fun w => w.login == login)).map entryCounts

/-- Number of assignee slots of one event carrying a given login. -/
def specSlots (login : String) (ev : CalendarEvent) : Nat :=
  (ev.assignees.filter (fun a => a.login == login)).length

/-- Specification-side count: assignee slots with a given login over the
non-closed events. -/
def specActiveCount (events : List CalendarEvent) (login : String) : Nat :=
  ((events.filter (fun ev => !(ev.status == "closed"))).map (specSlots login)).sum

/-- Specification-side count: slots with a given login over the non-closed
events whose start lies after `now`. -/
def specUpcomingCount (events : List CalendarEvent) (now : Int) (login : String) : Nat :=
  ((events.filter (fun ev => !(ev.status == "closed") && eventUpcoming now ev)).map
    (specSlots login)).sum

/-- Specification-side count: slots with a given login over the non-closed
events whose end is defined and earlier than `now`. -/
def specOverdueCount (events : List CalendarEvent) (now : Int) (login : String) : Nat :=
  ((events.filter (fun ev => !(ev.status == "closed") && eventOverdue now ev)).map
    (specSlots login)).sum

/-- Contribution of one event to a login's active/total counters. -/
def eventDeltaA (login : String) (ev : CalendarEvent) : Nat :=
  if ev.status = "closed" then 0 else specSlots login ev

/-- Contribution of one event to a login's upcoming counter. -/
def eventDeltaU (now : Int) (login : String) (ev : CalendarEvent) : Nat :=
  if ev.status = "closed" then 0
  else if eventUpcoming now ev then specSlots login ev else 0

/-- Contribution of one event to a login's overdue counter. -/
def eventDeltaO (now : Int) (login : String) (ev : CalendarEvent) : Nat :=
  if ev.status = "closed" then 0
  else if eventOverdue now ev then specSlots login ev else 0

/-- First day (day number) of the month holding the reference instant. -/
def monthFirstDay (cur : Int) : Int := dayNumOf (startOfMonthMs cur)

/-- Last day (day number) of the month holding the reference instant. -/
def monthLastDay (cur : Int) : Int := dayNumOf (endOfMonthMs cur)

/-! ## Concrete fixtures used by counterexamples, scenarios and witnesses -/

def mkFieldDate (n d : String) : FieldValue :=
  { fieldName := n, date := some d, text := none, selectName := none, number := none }

def baseIssue : Issue :=
  { number := 42, title := "issue title", body := "", state := "open"
    created_at := "2025-08-15", html_url := "https://example.invalid/i/42"
    labels := [], assignees := [], milestone := none }

/-- Item whose field-value list carries two start-date fields with
different dates (first 2025-09-01, then 2025-09-02). -/
def itemTwoStarts : ProjectItem :=
  { id := "A", content := baseIssue
    fieldValues := [mkFieldDate "Start Date" "2025-09-01", mkFieldDate "start (actual)" "2025-09-02"] }

/-- Item carrying two start-date fields and two end-date fields. -/
def itemBothSlots : ProjectItem :=
  { id := "B", content := baseIssue
    fieldValues :=
      [ mkFieldDate "Start Date" "2025-09-01", mkFieldDate "Due Date" "2025-09-08",
        mkFieldDate "start (actual)" "2025-09-02", mkFieldDate "End Date" "2025-09-09" ] }

def scenarioBody : String :=
  "**Start Date:** foo (2025-09-01)\n**End Date:** bar (2025-09-10)"

/-- Item with no field values whose body carries both date markers. -/
def itemBodyDates : ProjectItem :=
  { id := "C", content := { baseIssue with body := scenarioBody }, fieldValues := [] }

/-- Item with no field values and no body markers. -/
def itemPlain : ProjectItem :=
  { id := "D", content := { baseIssue with body := "just words" }, fieldValues := [] }

def aliceAssignee : Assignee := { login := "alice", avatar_url := "https://a/alice" }

def bobAssignee : Assignee := { login := "bob", avatar_url := "https://a/bob" }

def mkScenarioEvent (status : String) (sd ed : Option JSDate) (a : List Assignee) : CalendarEvent :=
  { id := "1", title := "t", startDate := sd, endDate := ed, url := "u", labels := []
    assignees := a, status := status, projectStatus := none, type := "issue" }

/-- Scenario events for the workload aggregate: alice has three open
events (one starting in the future, none overdue) and one closed event
(which is itself overdue, to exhibit that closed events are invisible);
the reference instant used with them is 1000. -/
def aliceScenarioEvents : List CalendarEvent :=
  [ mkScenarioEvent "open" (some (.valid 500)) none [aliceAssignee],
    mkScenarioEvent "open" (some (.valid 600)) (some (.valid 2000)) [aliceAssignee],
    mkScenarioEvent "open" (some (.valid 1500)) none [aliceAssignee],
    mkScenarioEvent "closed" (some (.valid 0)) (some (.valid 10)) [aliceAssignee] ]

def aliceScenarioEntry : WorkloadEntry :=
  { login := "alice", avatar_url := "https://a/alice"
    activeIssues := 3, upcomingIssues := 1, overdueIssues := 0, totalWorkload := 3 }

/-- Scenario events giving bob a workload of 5 and alice a workload of 2,
with bob encountered first. -/
def bobAliceScenarioEvents : List CalendarEvent :=
  List.replicate 5 (mkScenarioEvent "open" (some (.valid 0)) none [bobAssignee])
  ++ List.replicate 2 (mkScenarioEvent "open" (some (.valid 0)) none [aliceAssignee])

/-- Multi-day event spanning 2025-08-30 .. 2025-09-05. -/
def septemberSpanEvent : CalendarEvent :=
  mkScenarioEvent "open" (some (jsDate "2025-08-30")) (some (jsDate "2025-09-05")) []

/-- Single-day event on 2025-09-15 (no end date). -/
def septemberSingleEvent : CalendarEvent :=
  mkScenarioEvent "open" (some (jsDate "2025-09-15")) none []

/-- Single-day event on 2025-09-15 whose end date equals its start date. -/
def septemberSameEndEvent : CalendarEvent :=
  mkScenarioEvent "open" (some (jsDate "2025-09-15")) (some (jsDate "2025-09-15")) []

/-- Tool oracle whose every branch throws. -/
def throwingImpl : String → Except String ToolResponse := fun _ => .error "upstream exploded"

/-! ## Field-scan characterization -/

lemma fieldScanStep_of_start (acc : Option JSDate × Option JSDate × Option String)
    (fv : FieldValue) (h : isStartField fv = true) :
    fieldScanStep acc fv = (some (jsDate (fv.date.getD "")), acc.2.1, acc.2.2) := by
  unfold isStartField at h
  simp only [fieldScanStep, h, if_true]

lemma fieldScanStep_fst_of_not_start (acc : Option JSDate × Option JSDate × Option String)
    (fv : FieldValue) (h : isStartField fv = false) :
    (fieldScanStep acc fv).1 = acc.1 := by
  unfold isStartField at h
  simp only [fieldScanStep, h, Bool.false_eq_true, if_false]
  split
  · rfl
  · split <;> rfl

lemma fieldScanStep_of_end (acc : Option JSDate × Option JSDate × Option String)
    (fv : FieldValue) (h : isEndField fv = true) :
    (fieldScanStep acc fv).2.1 = some (jsDate (fv.date.getD "")) := by
  unfold isEndField at h
  rw [Bool.and_eq_true, Bool.and_eq_true] at h
  obtain ⟨⟨h1, h2⟩, h3⟩ := h
  rw [Bool.not_eq_true'] at h1
  unfold isStartField at h1
  have hbs : strIncludes (strLower fv.fieldName) "start" = false := by
    rcases Bool.and_eq_false_iff.mp h1 with h4 | h4
    · exact h4
    · rw [h3] at h4
      exact absurd h4 (by simp)
  simp only [fieldScanStep, hbs, Bool.false_and, Bool.false_eq_true, if_false, h2, h3,
    Bool.and_self, Bool.true_and, if_true]

lemma fieldScanStep_snd_of_not_end (acc : Option JSDate × Option JSDate × Option String)
    (fv : FieldValue) (h : isEndField fv = false) :
    (fieldScanStep acc fv).2.1 = acc.2.1 := by
  unfold isEndField at h
  by_cases hs : isStartField fv = true
  · rw [fieldScanStep_of_start acc fv hs]
  · rw [Bool.not_eq_true] at hs
    rw [hs] at h
    simp only [Bool.not_false, Bool.true_and, Bool.and_eq_false_iff] at h
    have hcond : ((strIncludes (strLower fv.fieldName) "end"
        || strIncludes (strLower fv.fieldName) "due") && truthyStr fv.date) = false := by
      rcases h with h | h
      · rw [h, Bool.false_and]
      · rw [h, Bool.and_false]
    unfold isStartField at hs
    simp only [fieldScanStep, hs, hcond, Bool.false_eq_true, if_false]
    split <;> rfl

lemma foldl_override {α β : Type} (f : α → β) :
    ∀ (l : List α) (init : β),
      l.foldl (fun _ a => f a) init =
        match l.getLast? with
        | some a => f a
        | none => init := by
  intro l
  induction l with
  | nil => intro init; rfl
  | cons a l ih =>
    intro init
    cases l with
    | nil => rfl
    | cons b l2 =>
      rw [List.foldl_cons, ih (f a), List.getLast?_cons_cons]
      have : (b :: l2).getLast?.isSome := by
        rw [List.getLast?_isSome]
        exact List.cons_ne_nil b l2
      obtain ⟨x, hx⟩ := Option.isSome_iff_exists.mp this
      rw [hx]

lemma scan_fst (nodes : List FieldValue) :
    ∀ acc : Option JSDate × Option JSDate × Option String,
      (nodes.foldl fieldScanStep acc).1 =
        match (nodes.filter isStartField).getLast? with
        | some fv => some (jsDate (fv.date.getD ""))
        | none => acc.1 := by
  have key : ∀ (ns : List FieldValue) (acc : Option JSDate × Option JSDate × Option String),
      (ns.foldl fieldScanStep acc).1 =
        (ns.filter isStartField).foldl (fun _ fv => some (jsDate (fv.date.getD ""))) acc.1 := by
    intro ns
    induction ns with
    | nil => intro acc; rfl
    | cons fv rest ih =>
      intro acc
      rw [List.foldl_cons, ih (fieldScanStep acc fv), List.filter_cons]
      cases h : isStartField fv with
      | true =>
        rw [if_pos rfl, List.foldl_cons, fieldScanStep_of_start acc fv h]
      | false =>
        rw [if_neg (by simp), fieldScanStep_fst_of_not_start acc fv h]
  intro acc
  rw [key nodes acc, foldl_override]
  cases hl : (List.filter isStartField nodes).getLast? <;> rfl

lemma scan_snd (nodes : List FieldValue) :
    ∀ acc : Option JSDate × Option JSDate × Option String,
      (nodes.foldl fieldScanStep acc).2.1 =
        match (nodes.filter isEndField).getLast? with
        | some fv => some (jsDate (fv.date.getD ""))
        | none => acc.2.1 := by
  have key : ∀ (ns : List FieldValue) (acc : Option JSDate × Option JSDate × Option String),
      (ns.foldl fieldScanStep acc).2.1 =
        (ns.filter isEndField).foldl (fun _ fv => some (jsDate (fv.date.getD ""))) acc.2.1 := by
    intro ns
    induction ns with
    | nil => intro acc; rfl
    | cons fv rest ih =>
      intro acc
      rw [List.foldl_cons, ih (fieldScanStep acc fv), List.filter_cons]
      cases h : isEndField fv with
      | true =>
        rw [if_pos rfl, List.foldl_cons, fieldScanStep_of_end acc fv h]
      | false =>
        rw [if_neg (by simp), fieldScanStep_snd_of_not_end acc fv h]
  intro acc
  rw [key nodes acc, foldl_override]
  cases hl : (List.filter isEndField nodes).getLast? <;> rfl

/-! ## Characterization of the per-item date resolution -/

lemma transformOneItem_startDate (item : ProjectItem) :
    (transformOneItem item).startDate =
      match (item.fieldValues.filter isStartField).getLast? with
      | some fv => some (jsDate (fv.date.getD ""))
      | none =>
        match bodyStartCapture item.content.body with
        | some c => some (jsDate c)
        | none => some (jsDate item.content.created_at) := by
  unfold transformOneItem
  dsimp only
  cases hS : (item.fieldValues.filter isStartField).getLast? with
  | some fv =>
    have h0 : (List.foldl fieldScanStep (none, none, none) item.fieldValues).1
        = some (jsDate (fv.date.getD "")) := by
      rw [scan_fst item.fieldValues (none, none, none), hS]
    rw [h0]
    split <;> simp
  | none =>
    have h0 : (List.foldl fieldScanStep (none, none, none) item.fieldValues).1
        = (none : Option JSDate) := by
      rw [scan_fst item.fieldValues (none, none, none), hS]
    rw [h0]
    cases hB : bodyStartCapture item.content.body with
    | some c => simp [hB]
    | none => simp [hB]

lemma transformOneItem_endDate (item : ProjectItem) :
    (transformOneItem item).endDate =
      match (item.fieldValues.filter isEndField).getLast? with
      | some fv => some (jsDate (fv.date.getD ""))
      | none =>
        match bodyEndCapture item.content.body with
        | some c => some (jsDate c)
        | none =>
          if truthyMilestoneDue item.content.milestone then
            some (jsDate ((item.content.milestone.bind Milestone.due_on).getD ""))
          else none := by
  unfold transformOneItem
  dsimp only
  cases hE : (item.fieldValues.filter isEndField).getLast? with
  | some fv =>
    have h0 : (List.foldl fieldScanStep (none, none, none) item.fieldValues).2.1
        = some (jsDate (fv.date.getD "")) := by
      rw [scan_snd item.fieldValues (none, none, none), hE]
    rw [h0]
    split <;> simp
  | none =>
    have h0 : (List.foldl fieldScanStep (none, none, none) item.fieldValues).2.1
        = (none : Option JSDate) := by
      rw [scan_snd item.fieldValues (none, none, none), hE]
    rw [h0]
    cases hB : bodyEndCapture item.content.body with
    | some c => simp [hB]
    | none => simp [hB]

lemma transformOneItem_startDate_isSome (item : ProjectItem) :
    (transformOneItem item).startDate.isSome := by
  rw [transformOneItem_startDate]
  cases hS : (item.fieldValues.filter isStartField).getLast? with
  | some fv => simp
  | none =>
    cases hB : bodyStartCapture item.content.body <;> simp

/-- C10: `transformToCalendarEvents` returns exactly one event per input
item: the `created_at` fallback always supplies some `Date` object for
`startDate` (possibly an Invalid Date, which is still truthy), so the
final `startDate` filter keeps every mapped event and the silent-drop
branch is unreachable — the output is exactly the per-item image and its
length equals the input length. -/
theorem C10_transform_preserves_length (items : List ProjectItem) :
    transformToCalendarEvents items = items.map transformOneItem
    ∧ (transformToCalendarEvents items).length = items.length := by
  have hfil : transformToCalendarEvents items = items.map transformOneItem := by
    unfold transformToCalendarEvents
    apply List.filter_eq_self.mpr
    intro ev hev
    obtain ⟨i, _, rfl⟩ := List.mem_map.mp hev
    exact transformOneItem_startDate_isSome i
  exact ⟨hfil, by rw [hfil, List.length_map]⟩

/-- C1 counterexample: an item whose field values carry two start-date
fields, first 2025-09-01 then 2025-09-02.  The claim as stated ("the
first matching field value supplies the slot and later matches are
ignored") demands startDate 2025-09-01; the code yields 2025-09-02 — each
matching field value overwrites the slot, so the last match wins. -/
theorem C1_first_match_counterexample :
    (transformToCalendarEvents [itemTwoStarts]).map (fun ev => ev.startDate)
      ≠ [some (JSDate.valid (civilMs 2025 9 1))]
    ∧ (transformToCalendarEvents [itemTwoStarts]).map (fun ev => ev.startDate)
      = [some (JSDate.valid (civilMs 2025 9 2))] := by
  constructor
  · decide
  · decide

/-- C1 (amended): in date-field resolution, for every issue the LAST
matching field value in iteration order supplies each slot — every
earlier match for the same slot is overwritten ("start" fields feed
`startDate`; non-start "end"/"due" fields feed `endDate`). -/
theorem C1_last_match_supplies_slot (item : ProjectItem) (fvS fvE : FieldValue)
    (hS : (item.fieldValues.filter isStartField).getLast? = some fvS)
    (hE : (item.fieldValues.filter isEndField).getLast? = some fvE) :
    (transformToCalendarEvents [item]).map (fun ev => (ev.startDate, ev.endDate))
      = [(some (jsDate (fvS.date.getD "")), some (jsDate (fvE.date.getD "")))] := by
  have h1 : transformToCalendarEvents [item] = [transformOneItem item] :=
    (C10_transform_preserves_length [item]).1
  rw [h1, List.map_singleton, transformOneItem_startDate, transformOneItem_endDate, hS, hE]

/-- Witness for C1: the amended theorem applied to a concrete item with
two start fields and two end fields. -/
theorem C1_last_match_witness :
    (itemBothSlots.fieldValues.filter isStartField).getLast?
        = some (mkFieldDate "start (actual)" "2025-09-02")
    ∧ (itemBothSlots.fieldValues.filter isEndField).getLast?
        = some (mkFieldDate "End Date" "2025-09-09")
    ∧ (transformToCalendarEvents [itemBothSlots]).map (fun ev => (ev.startDate, ev.endDate))
        = [(some (JSDate.valid (civilMs 2025 9 2)), some (JSDate.valid (civilMs 2025 9 9)))] :=
  ⟨by decide, by decide, by
    have h := C1_last_match_supplies_slot itemBothSlots
      (mkFieldDate "start (actual)" "2025-09-02") (mkFieldDate "End Date" "2025-09-09")
      (by decide) (by decide)
    exact h⟩

/-- C4: with no date-carrying start/end field values, dates come from the
issue-body markers when present — the scenario body yields
startDate 2025-09-01 and endDate 2025-09-10 — and with no start field
value and no body start-marker, `startDate` is parsed from the issue's
`created_at`. -/
theorem C4_body_marker_and_created_at_fallback (item : ProjectItem) :
    (item.fieldValues.filter isStartField = [] →
     item.fieldValues.filter isEndField = [] →
     item.content.body = scenarioBody →
     (transformToCalendarEvents [item]).map (fun ev => (ev.startDate, ev.endDate))
       = [(some (JSDate.valid (civilMs 2025 9 1)), some (JSDate.valid (civilMs 2025 9 10)))])
    ∧ (item.fieldValues.filter isStartField = [] →
       bodyStartCapture item.content.body = none →
       (transformToCalendarEvents [item]).map (fun ev => ev.startDate)
         = [some (jsDate item.content.created_at)]) := by
  have h1 : transformToCalendarEvents [item] = [transformOneItem item] :=
    (C10_transform_preserves_length [item]).1
  constructor
  · intro hS hE hB
    rw [h1, List.map_singleton, transformOneItem_startDate, transformOneItem_endDate,
      hS, hE, hB]
    have hBS : bodyStartCapture scenarioBody = some "2025-09-01" := by decide
    have hBE : bodyEndCapture scenarioBody = some "2025-09-10" := by decide
    rw [hBS, hBE]
    have e1 : jsDate "2025-09-01" = JSDate.valid (civilMs 2025 9 1) := by decide
    have e2 : jsDate "2025-09-10" = JSDate.valid (civilMs 2025 9 10) := by decide
    simp [e1, e2]
  · intro hS hB
    rw [h1, List.map_singleton, transformOneItem_startDate, hS, hB]
    simp

/-- Witness for C4: both implications applied to concrete items (a body
with both markers, and a body with no markers). -/
theorem C4_fallback_witness :
    (transformToCalendarEvents [itemBodyDates]).map (fun ev => (ev.startDate, ev.endDate))
      = [(some (JSDate.valid (civilMs 2025 9 1)), some (JSDate.valid (civilMs 2025 9 10)))]
    ∧ (transformToCalendarEvents [itemPlain]).map (fun ev => ev.startDate)
      = [some (jsDate "2025-08-15")] :=
  ⟨(C4_body_marker_and_created_at_fallback itemBodyDates).1 (by decide) (by decide) rfl,
   (C4_body_marker_and_created_at_fallback itemPlain).2 (by decide) (by decide)⟩

/-! ## Workload aggregation: lookup characterization -/

lemma entryCounts_bumpMember (now : Int) (ev : CalendarEvent) (w : WorkloadEntry) :
    entryCounts (bumpMember now ev w) =
      (w.activeIssues + 1,
       w.upcomingIssues + (if eventUpcoming now ev then 1 else 0),
       w.overdueIssues + (if eventOverdue now ev then 1 else 0),
       w.totalWorkload + 1) := rfl

lemma lookupCounts_nil (login : String) : lookupCounts login [] = none := rfl

lemma lookupCounts_cons (login : String) (w : WorkloadEntry) (st : List WorkloadEntry) :
    lookupCounts login (w :: st) =
      if w.login = login then some (entryCounts w) else lookupCounts login st := by
  unfold lookupCounts
  by_cases h : w.login = login
  · rw [List.find?_cons_of_pos _ (by simpa using h), if_pos h]
    rfl
  · rw [List.find?_cons_of_neg _ (by simpa using h), if_neg h]

lemma lookupCounts_addAssignee (now : Int) (ev : CalendarEvent) (a : Assignee) (login : String) :
    ∀ st : List WorkloadEntry,
      lookupCounts login (addAssignee now ev a st) =
        if a.login = login then
          some (match lookupCounts login st with
                | some (act, up, ov, tot) =>
                  (act + 1, up + (if eventUpcoming now ev then 1 else 0),
                   ov + (if eventOverdue now ev then 1 else 0), tot + 1)
                | none =>
                  (1, (if eventUpcoming now ev then 1 else 0),
                   (if eventOverdue now ev then 1 else 0), 1))
        else lookupCounts login st := by
  intro st
  induction st with
  | nil =>
    show lookupCounts login [bumpMember now ev (freshEntry a)] = _
    rw [lookupCounts_cons, lookupCounts_nil]
    have hlogin : (bumpMember now ev (freshEntry a)).login = a.login := rfl
    by_cases h : a.login = login
    · rw [hlogin, if_pos h, if_pos h, entryCounts_bumpMember]
      simp [freshEntry]
    · rw [hlogin, if_neg h, if_neg h]
  | cons w ws ih =>
    unfold addAssignee
    by_cases hwa : w.login = a.login
    · rw [if_pos hwa, lookupCounts_cons, lookupCounts_cons]
      have hlogin : (bumpMember now ev w).login = w.login := rfl
      rw [hlogin]
      by_cases hwl : w.login = login
      · have hal : a.login = login := hwa ▸ hwl
        simp only [if_pos hwl, if_pos hal, entryCounts_bumpMember]
        simp [entryCounts]
      · have hal : ¬a.login = login := fun h => hwl (hwa.trans h)
        simp only [if_neg hwl, if_neg hal]
    · rw [if_neg hwa, lookupCounts_cons, lookupCounts_cons]
      by_cases hwl : w.login = login
      · have hal : ¬a.login = login := fun h => hwa (hwl.trans h.symm)
        simp only [if_pos hwl, if_neg hal]
      · simp only [if_neg hwl]
        exact ih

lemma lookupCounts_assigneeFold (now : Int) (ev : CalendarEvent) (login : String) :
    ∀ (as : List Assignee) (st : List WorkloadEntry),
      lookupCounts login (as.foldl (fun st a => addAssignee now ev a st) st) =
        match lookupCounts login st with
        | some (act, up, ov, tot) =>
          some (act + (as.filter (fun x => x.login == login)).length,
                up + (if eventUpcoming now ev then (as.filter (fun x => x.login == login)).length else 0),
                ov + (if eventOverdue now ev then (as.filter (fun x => x.login == login)).length else 0),
                tot + (as.filter (fun x => x.login == login)).length)
        | none =>
          if (as.filter (fun x => x.login == login)).length = 0 then none
          else some ((as.filter (fun x => x.login == login)).length,
                     (if eventUpcoming now ev then (as.filter (fun x => x.login == login)).length else 0),
                     (if eventOverdue now ev then (as.filter (fun x => x.login == login)).length else 0),
                     (as.filter (fun x => x.login == login)).length) := by
  intro as
  induction as with
  | nil =>
    intro st
    cases hc : lookupCounts login st with
    | some c => obtain ⟨act, up, ov, tot⟩ := c; simp [hc]
    | none => simp [hc]
  | cons a as2 ih =>
    intro st
    rw [List.foldl_cons, ih (addAssignee now ev a st), lookupCounts_addAssignee]
    by_cases haa : a.login = login
    · have hfil : (a :: as2).filter (fun x => x.login == login)
          = a :: as2.filter (fun x => x.login == login) := by
        simp [List.filter_cons, haa]
      rw [if_pos haa, hfil]
      cases hc : lookupCounts login st with
      | some c =>
        obtain ⟨act, up, ov, tot⟩ := c
        by_cases hu : eventUpcoming now ev <;> by_cases ho : eventOverdue now ev <;>
          simp [hu, ho] <;> omega
      | none =>
        by_cases hu : eventUpcoming now ev <;> by_cases ho : eventOverdue now ev <;>
          simp [hu, ho] <;> omega
    · have hfil : (a :: as2).filter (fun x => x.login == login)
          = as2.filter (fun x => x.login == login) := by
        simp [List.filter_cons, haa]
      rw [if_neg haa, hfil]

lemma lookupCounts_processEvent (now : Int) (login : String) (ev : CalendarEvent)
    (st : List WorkloadEntry) :
    lookupCounts login (processEvent now st ev) =
      match lookupCounts login st with
      | some (act, up, ov, tot) =>
        some (act + eventDeltaA login ev, up + eventDeltaU now login ev,
              ov + eventDeltaO now login ev, tot + eventDeltaA login ev)
      | none =>
        if eventDeltaA login ev = 0 then none
        else some (eventDeltaA login ev, eventDeltaU now login ev,
                   eventDeltaO now login ev, eventDeltaA login ev) := by
  unfold processEvent eventDeltaA eventDeltaU eventDeltaO
  by_cases hc : ev.status = "closed"
  · simp only [if_pos hc]
    cases hcc : lookupCounts login st with
    | some c => obtain ⟨act, up, ov, tot⟩ := c; simp
    | none => simp
  · simp only [if_neg hc]
    rw [lookupCounts_assigneeFold]
    unfold specSlots
    cases hcc : lookupCounts login st with
    | some c => obtain ⟨act, up, ov, tot⟩ := c; rfl
    | none => rfl

lemma eventDeltaU_eq_zero (now : Int) (login : String) (ev : CalendarEvent)
    (h : eventDeltaA login ev = 0) : eventDeltaU now login ev = 0 := by
  unfold eventDeltaA at h
  unfold eventDeltaU
  by_cases hc : ev.status = "closed"
  · simp [hc]
  · rw [if_neg hc] at h ⊢
    simp [h]

lemma eventDeltaO_eq_zero (now : Int) (login : String) (ev : CalendarEvent)
    (h : eventDeltaA login ev = 0) : eventDeltaO now login ev = 0 := by
  unfold eventDeltaA at h
  unfold eventDeltaO
  by_cases hc : ev.status = "closed"
  · simp [hc]
  · rw [if_neg hc] at h ⊢
    simp [h]

lemma specActiveCount_cons (ev : CalendarEvent) (evs : List CalendarEvent) (login : String) :
    specActiveCount (ev :: evs) login = eventDeltaA login ev + specActiveCount evs login := by
  unfold specActiveCount eventDeltaA
  by_cases hc : ev.status = "closed"
  · simp [List.filter_cons, hc]
  · simp [List.filter_cons, hc]

lemma specUpcomingCount_cons (ev : CalendarEvent) (evs : List CalendarEvent)
    (now : Int) (login : String) :
    specUpcomingCount (ev :: evs) now login
      = eventDeltaU now login ev + specUpcomingCount evs now login := by
  unfold specUpcomingCount eventDeltaU
  by_cases hc : ev.status = "closed"
  · simp [List.filter_cons, hc]
  · by_cases hu : eventUpcoming now ev
    · simp [List.filter_cons, hc, hu]
    · simp [List.filter_cons, hc, hu]

lemma specOverdueCount_cons (ev : CalendarEvent) (evs : List CalendarEvent)
    (now : Int) (login : String) :
    specOverdueCount (ev :: evs) now login
      = eventDeltaO now login ev + specOverdueCount evs now login := by
  unfold specOverdueCount eventDeltaO
  by_cases hc : ev.status = "closed"
  · simp [List.filter_cons, hc]
  · by_cases ho : eventOverdue now ev
    · simp [List.filter_cons, hc, ho]
    · simp [List.filter_cons, hc, ho]

lemma lookupCounts_foldEvents (now : Int) (login : String) :
    ∀ (events : List CalendarEvent) (st : List WorkloadEntry),
      lookupCounts login (events.foldl (processEvent now) st) =
        match lookupCounts login st with
        | some (act, up, ov, tot) =>
          some (act + specActiveCount events login,
                up + specUpcomingCount events now login,
                ov + specOverdueCount events now login,
                tot + specActiveCount events login)
        | none =>
          if specActiveCount events login = 0 then none
          else some (specActiveCount events login, specUpcomingCount events now login,
                     specOverdueCount events now login, specActiveCount events login) := by
  intro events
  induction events with
  | nil =>
    intro st
    cases hc : lookupCounts login st with
    | some c =>
      obtain ⟨act, up, ov, tot⟩ := c
      simp [hc, specActiveCount, specUpcomingCount, specOverdueCount]
    | none => simp [hc, specActiveCount, specUpcomingCount, specOverdueCount]
  | cons ev evs ih =>
    intro st
    rw [List.foldl_cons, ih (processEvent now st ev), lookupCounts_processEvent,
      specActiveCount_cons, specUpcomingCount_cons, specOverdueCount_cons]
    cases hcc : lookupCounts login st with
    | some c =>
      obtain ⟨act, up, ov, tot⟩ := c
      simp [Nat.add_assoc]
    | none =>
      by_cases hda : eventDeltaA login ev = 0
      · simp [hda, eventDeltaU_eq_zero now login ev hda,
          eventDeltaO_eq_zero now login ev hda]
      · rw [if_neg hda]
        by_cases hA : specActiveCount evs login = 0
        · simp [hA]
          omega
        · simp [hA]

/-! ## Workload table invariants and the ranking sort -/

lemma mem_logins_addAssignee (now : Int) (ev : CalendarEvent) (a : Assignee) (x : String) :
    ∀ st : List WorkloadEntry,
      x ∈ (addAssignee now ev a st).map (fun w => w.login) →
      x ∈ st.map (fun w => w.login) ∨ x = a.login := by
  intro st
  induction st with
  | nil =>
    intro hx
    simp [addAssignee, bumpMember, freshEntry] at hx
    exact Or.inr hx
  | cons w ws ih =>
    intro hx
    unfold addAssignee at hx
    by_cases hwa : w.login = a.login
    · rw [if_pos hwa] at hx
      simp only [List.map_cons, List.mem_cons] at hx
      rcases hx with hx | hx
      · exact Or.inl (by simp [hx, bumpMember])
      · exact Or.inl (by simp only [List.map_cons, List.mem_cons]; exact Or.inr hx)
    · rw [if_neg hwa] at hx
      simp only [List.map_cons, List.mem_cons] at hx
      rcases hx with hx | hx
      · exact Or.inl (by simp [hx])
      · rcases ih hx with h | h
        · exact Or.inl (by simp only [List.map_cons, List.mem_cons]; exact Or.inr h)
        · exact Or.inr h

lemma nodup_logins_addAssignee (now : Int) (ev : CalendarEvent) (a : Assignee) :
    ∀ st : List WorkloadEntry,
      (st.map (fun w => w.login)).Nodup →
      ((addAssignee now ev a st).map (fun w => w.login)).Nodup := by
  intro st
  induction st with
  | nil =>
    intro _
    simp [addAssignee]
  | cons w ws ih =>
    intro hnd
    simp only [List.map_cons, List.nodup_cons] at hnd
    obtain ⟨hw, hws⟩ := hnd
    unfold addAssignee
    by_cases hwa : w.login = a.login
    · rw [if_pos hwa]
      simp only [List.map_cons, List.nodup_cons]
      exact ⟨by simpa [bumpMember] using hw, hws⟩
    · rw [if_neg hwa]
      simp only [List.map_cons, List.nodup_cons]
      refine ⟨fun hmem => ?_, ih hws⟩
      rcases mem_logins_addAssignee now ev a w.login ws hmem with h | h
      · exact hw h
      · exact hwa h

lemma nodup_logins_assigneeFold (now : Int) (ev : CalendarEvent) :
    ∀ (as : List Assignee) (st : List WorkloadEntry),
      (st.map (fun w => w.login)).Nodup →
      (((as.foldl (fun st a => addAssignee now ev a st) st)).map (fun w => w.login)).Nodup := by
  intro as
  induction as with
  | nil => intro st h; exact h
  | cons a as2 ih =>
    intro st h
    exact ih (addAssignee now ev a st) (nodup_logins_addAssignee now ev a st h)

lemma nodup_logins_processEvent (now : Int) (ev : CalendarEvent) (st : List WorkloadEntry)
    (h : (st.map (fun w => w.login)).Nodup) :
    ((processEvent now st ev).map (fun w => w.login)).Nodup := by
  unfold processEvent
  by_cases hc : ev.status = "closed"
  · rwa [if_pos hc]
  · rw [if_neg hc]
    exact nodup_logins_assigneeFold now ev ev.assignees st h

lemma nodup_logins_table (events : List CalendarEvent) (now : Int) :
    ((teamWorkloadTable events now).map (fun w => w.login)).Nodup := by
  unfold teamWorkloadTable
  have key : ∀ (evs : List CalendarEvent) (st : List WorkloadEntry),
      (st.map (fun w => w.login)).Nodup →
      ((evs.foldl (processEvent now) st).map (fun w => w.login)).Nodup := by
    intro evs
    induction evs with
    | nil => intro st h; exact h
    | cons ev evs2 ih =>
      intro st h
      exact ih (processEvent now st ev) (nodup_logins_processEvent now ev st h)
  exact key events [] (by simp)

lemma find?_login_of_mem (w : WorkloadEntry) :
    ∀ st : List WorkloadEntry,
      (st.map (fun v => v.login)).Nodup → w ∈ st →
      st.find? (fun v => v.login == w.login) = some w := by
  intro st
  induction st with
  | nil => intro _ h; exact absurd h (List.not_mem_nil w)
  | cons v vs ih =>
    intro hnd hmem
    simp only [List.map_cons, List.nodup_cons] at hnd
    obtain ⟨hv, hvs⟩ := hnd
    rcases List.mem_cons.mp hmem with rfl | hmem2
    · rw [List.find?_cons_of_pos _ (by simp)]
    · have hne : v.login ≠ w.login := by
        intro heq
        exact hv (heq ▸ List.mem_map_of_mem (fun x => x.login) hmem2)
      rw [List.find?_cons_of_neg _ (by simpa using hne)]
      exact ih hvs hmem2

lemma insertRanked_perm (w : WorkloadEntry) :
    ∀ l : List WorkloadEntry, (insertRanked w l).Perm (w :: l) := by
  intro l
  induction l with
  | nil => exact List.Perm.refl _
  | cons v vs ih =>
    unfold insertRanked
    by_cases h : w.totalWorkload < v.totalWorkload
    · rw [if_pos h]
    · rw [if_neg h]
      exact (List.Perm.cons v ih).trans (List.Perm.swap w v vs)

lemma sortByWorkload_perm (l : List WorkloadEntry) : (sortByWorkload l).Perm l := by
  have key : ∀ (l acc : List WorkloadEntry),
      (l.foldl (fun acc w => insertRanked w acc) acc).Perm (acc ++ l) := by
    intro l
    induction l with
    | nil => intro acc; simp
    | cons w ws ih =>
      intro acc
      rw [List.foldl_cons]
      exact (ih (insertRanked w acc)).trans
        (((insertRanked_perm w acc).append_right ws).trans List.perm_middle.symm)
  have h := key l []
  simpa using h

lemma mem_insertRanked (x w : WorkloadEntry) (l : List WorkloadEntry) :
    x ∈ insertRanked w l ↔ x = w ∨ x ∈ l := by
  rw [(insertRanked_perm w l).mem_iff, List.mem_cons]

lemma insertRanked_pairwise (w : WorkloadEntry) :
    ∀ l : List WorkloadEntry,
      l.Pairwise (fun a b => a.totalWorkload ≤ b.totalWorkload) →
      (insertRanked w l).Pairwise (fun a b => a.totalWorkload ≤ b.totalWorkload) := by
  intro l
  induction l with
  | nil => intro _; simp [insertRanked]
  | cons v vs ih =>
    intro hp
    rw [List.pairwise_cons] at hp
    obtain ⟨hv, hvs⟩ := hp
    unfold insertRanked
    by_cases h : w.totalWorkload < v.totalWorkload
    · rw [if_pos h]
      rw [List.pairwise_cons]
      refine ⟨?_, List.pairwise_cons.mpr ⟨hv, hvs⟩⟩
      intro x hx
      rcases List.mem_cons.mp hx with rfl | hx2
      · exact Nat.le_of_lt h
      · exact Nat.le_trans (Nat.le_of_lt h) (hv x hx2)
    · rw [if_neg h]
      rw [List.pairwise_cons]
      refine ⟨?_, ih hvs⟩
      intro x hx
      rcases (mem_insertRanked x w vs).mp hx with rfl | hx2
      · exact Nat.le_of_not_lt h
      · exact hv x hx2

lemma sortByWorkload_pairwise (l : List WorkloadEntry) :
    (sortByWorkload l).Pairwise (fun a b => a.totalWorkload ≤ b.totalWorkload) := by
  have key : ∀ (l acc : List WorkloadEntry),
      acc.Pairwise (fun a b => a.totalWorkload ≤ b.totalWorkload) →
      (l.foldl (fun acc w => insertRanked w acc) acc).Pairwise
        (fun a b => a.totalWorkload ≤ b.totalWorkload) := by
    intro l
    induction l with
    | nil => intro acc h; exact h
    | cons w ws ih =>
      intro acc h
      exact ih (insertRanked w acc) (insertRanked_pairwise w acc h)
  exact key l [] (by simp)

lemma filter_insertRanked (w : WorkloadEntry) (v : Nat) :
    ∀ l : List WorkloadEntry,
      l.Pairwise (fun a b => a.totalWorkload ≤ b.totalWorkload) →
      (insertRanked w l).filter (fun x => x.totalWorkload == v)
        = l.filter (fun x => x.totalWorkload == v)
          ++ (if w.totalWorkload == v then [w] else []) := by
  intro l
  induction l with
  | nil =>
    intro _
    simp only [insertRanked, List.filter_nil, List.nil_append]
    by_cases h : w.totalWorkload = v
    · rw [List.filter_cons]
      simp [h]
    · rw [List.filter_cons]
      simp [h]
  | cons u us ih =>
    intro hp
    rw [List.pairwise_cons] at hp
    obtain ⟨hu, hus⟩ := hp
    unfold insertRanked
    by_cases h : w.totalWorkload < u.totalWorkload
    · rw [if_pos h]
      by_cases hv : w.totalWorkload = v
      · have hunv : ∀ x ∈ u :: us, ¬(x.totalWorkload == v) = true := by
          intro x hx
          have hgt : v < x.totalWorkload := by
            rcases List.mem_cons.mp hx with rfl | hx2
            · exact hv ▸ h
            · exact Nat.lt_of_lt_of_le (hv ▸ h) (hu x hx2)
          simp
          omega
        have hfilnil : (u :: us).filter (fun x => x.totalWorkload == v) = [] :=
          List.filter_eq_nil_iff.mpr hunv
        rw [List.filter_cons]
        simp only [hv, beq_self_eq_true, if_pos, hfilnil, List.nil_append]
      · rw [List.filter_cons]
        have : (w.totalWorkload == v) = false := by simp [hv]
        simp [this]
    · rw [if_neg h]
      rw [List.filter_cons, List.filter_cons, ih hus]
      by_cases huv : u.totalWorkload = v
      · simp [huv]
      · have : (u.totalWorkload == v) = false := by simp [huv]
        simp [this]

lemma filter_sortByWorkload (l : List WorkloadEntry) (v : Nat) :
    (sortByWorkload l).filter (fun x => x.totalWorkload == v)
      = l.filter (fun x => x.totalWorkload == v) := by
  have key : ∀ (l acc : List WorkloadEntry),
      acc.Pairwise (fun a b => a.totalWorkload ≤ b.totalWorkload) →
      (l.foldl (fun acc w => insertRanked w acc) acc).filter (fun x => x.totalWorkload == v)
        = acc.filter (fun x => x.totalWorkload == v)
          ++ l.filter (fun x => x.totalWorkload == v) := by
    intro l
    induction l with
    | nil => intro acc h; simp
    | cons w ws ih =>
      intro acc h
      rw [List.foldl_cons, ih (insertRanked w acc) (insertRanked_pairwise w acc h),
        filter_insertRanked w v acc h, List.filter_cons]
      by_cases hv : w.totalWorkload = v
      · simp [hv]
      · have : (w.totalWorkload == v) = false := by simp [hv]
        simp [this]
  have h := key l [] (by simp)
  simpa using h

/-- Shared characterization: every entry of the returned ranking carries
exactly the specification-side counts for its login. -/
lemma analyzeTeamWorkload_mem_counts (events : List CalendarEvent) (now : Int)
    (w : WorkloadEntry) (hw : w ∈ analyzeTeamWorkload events now) :
    w.activeIssues = specActiveCount events w.login
    ∧ w.totalWorkload = specActiveCount events w.login
    ∧ w.upcomingIssues = specUpcomingCount events now w.login
    ∧ w.overdueIssues = specOverdueCount events now w.login := by
  have hmem : w ∈ teamWorkloadTable events now :=
    (sortByWorkload_perm (teamWorkloadTable events now)).mem_iff.mp hw
  have hnd := nodup_logins_table events now
  have hfind := find?_login_of_mem w (teamWorkloadTable events now) hnd hmem
  have hchar := lookupCounts_foldEvents now w.login events []
  rw [lookupCounts_nil] at hchar
  unfold teamWorkloadTable at hfind
  unfold lookupCounts at hchar
  rw [hfind] at hchar
  by_cases hA : specActiveCount events w.login = 0
  · rw [if_pos hA] at hchar
    exact absurd hchar (by simp)
  · rw [if_neg hA] at hchar
    have := Option.some_injective _ hchar
    unfold entryCounts at this
    have h1 := congrArg Prod.fst this
    have h2 := congrArg (fun p => p.2.1) this
    have h3 := congrArg (fun p => p.2.2.1) this
    have h4 := congrArg (fun p => p.2.2.2) this
    simp only at h1 h2 h3 h4
    exact ⟨h1, h4, h2, h3⟩

lemma foldEvents_filter_closed (now : Int) :
    ∀ (events : List CalendarEvent) (st : List WorkloadEntry),
      events.foldl (processEvent now) st
        = (events.filter (fun ev => !(ev.status == "closed"))).foldl (processEvent now) st := by
  intro events
  induction events with
  | nil => intro st; rfl
  | cons ev evs ih =>
    intro st
    rw [List.foldl_cons, List.filter_cons]
    by_cases hc : ev.status = "closed"
    · have hb : (!(ev.status == "closed")) = false := by simp [hc]
      have hskip : processEvent now st ev = st := by unfold processEvent; rw [if_pos hc]
      simp only [hb, Bool.false_eq_true, if_false]
      rw [hskip, ih]
    · have hb : (!(ev.status == "closed")) = true := by simp [hc]
      simp only [hb, if_true]
      rw [List.foldl_cons, ih]

/-- C2: closed events contribute nothing to the aggregate (filtering them
out first changes nothing), every entry's counters equal the
specification-side counts over the non-closed events assigned to its
login (active/total per slot, upcoming iff the start lies after now,
overdue iff the end is defined and earlier than now), and the alice
scenario — three open events (one upcoming, none overdue) plus one closed
event — produces exactly activeIssues 3, upcomingIssues 1,
overdueIssues 0, totalWorkload 3. -/
theorem C2_workload_counters (events : List CalendarEvent) (now : Int) :
    analyzeTeamWorkload events now
      = analyzeTeamWorkload (events.filter (fun ev => !(ev.status == "closed"))) now
    ∧ (∀ w ∈ analyzeTeamWorkload events now,
        w.activeIssues = specActiveCount events w.login
        ∧ w.totalWorkload = specActiveCount events w.login
        ∧ w.upcomingIssues = specUpcomingCount events now w.login
        ∧ w.overdueIssues = specOverdueCount events now w.login)
    ∧ analyzeTeamWorkload aliceScenarioEvents 1000 = [aliceScenarioEntry] := by
  refine ⟨?_, ?_, by decide⟩
  · unfold analyzeTeamWorkload teamWorkloadTable
    rw [foldEvents_filter_closed]
  · intro w hw
    exact analyzeTeamWorkload_mem_counts events now w hw

/-- Witness for C2: the counter characterization instantiated at the
alice scenario entry. -/
theorem C2_workload_witness :
    aliceScenarioEntry ∈ analyzeTeamWorkload aliceScenarioEvents 1000
    ∧ aliceScenarioEntry.activeIssues = specActiveCount aliceScenarioEvents aliceScenarioEntry.login
    ∧ aliceScenarioEntry.totalWorkload = specActiveCount aliceScenarioEvents aliceScenarioEntry.login
    ∧ aliceScenarioEntry.upcomingIssues = specUpcomingCount aliceScenarioEvents 1000 aliceScenarioEntry.login
    ∧ aliceScenarioEntry.overdueIssues = specOverdueCount aliceScenarioEvents 1000 aliceScenarioEntry.login :=
  ⟨by decide, (C2_workload_counters aliceScenarioEvents 1000).2.1 aliceScenarioEntry (by decide)⟩

/-- C3: the ranking returned by `analyzeTeamWorkload` is ascending in
`totalWorkload` between all adjacent pairs, ties keep the encounter order
of the pre-sort table (the filter at every workload value is unchanged by
the sort — stability), and `find_best_assignee` recommends the head of
the ranking: with bob at workload 5 and alice at workload 2 the
recommendation is alice. -/
theorem C3_ranking_sorted_stable (events : List CalendarEvent) (now : Int) :
    List.Chain' (fun a b => a.totalWorkload ≤ b.totalWorkload) (analyzeTeamWorkload events now)
    ∧ (∀ v : Nat, (analyzeTeamWorkload events now).filter (fun w => w.totalWorkload == v)
        = (teamWorkloadTable events now).filter (fun w => w.totalWorkload == v))
    ∧ (bestAssignee bobAliceScenarioEvents 100).map (fun w => w.login) = some "alice" := by
  refine ⟨?_, ?_, by decide⟩
  · exact (sortByWorkload_pairwise (teamWorkloadTable events now)).chain'
  · intro v
    exact filter_sortByWorkload (teamWorkloadTable events now) v

/-- C8: in every entry produced by `analyzeTeamWorkload`,
`totalWorkload` equals `activeIssues` — the two fields are incremented
together on every non-closed event and never separately. -/
theorem C8_total_equals_active (events : List CalendarEvent) (now : Int)
    (w : WorkloadEntry) (hw : w ∈ analyzeTeamWorkload events now) :
    w.totalWorkload = w.activeIssues := by
  obtain ⟨h1, h2, _, _⟩ := analyzeTeamWorkload_mem_counts events now w hw
  rw [h2, h1]

/-- Witness for C8: the invariant at the alice scenario entry. -/
theorem C8_total_equals_active_witness :
    aliceScenarioEntry ∈ analyzeTeamWorkload aliceScenarioEvents 1000
    ∧ aliceScenarioEntry.totalWorkload = aliceScenarioEntry.activeIssues :=
  ⟨by decide, C8_total_equals_active aliceScenarioEvents 1000 aliceScenarioEntry (by decide)⟩

/-! ## Fetch fallback and dispatch boundary -/

/-- C5 counterexample: when the GraphQL path fails and the first search
page also fails, `fetchProjectItems` returns a successful EMPTY result —
the search loop catches the page error, breaks, and returns whatever was
accumulated — rather than surfacing an error result as the claim states. -/
theorem C5_error_result_counterexample :
    fetchProjectItems (Except.error "GraphQL request failed")
        [Except.error "search request failed"] = Except.ok []
    ∧ ∀ msg : String,
        fetchProjectItems (Except.error "GraphQL request failed")
          [Except.error "search request failed"] ≠ Except.error msg := by
  refine ⟨rfl, ?_⟩
  intro msg h
  exact Except.noConfusion h

/-- C5 (amended): a failed primary path falls back exactly once to the
label search, whose outcome is always a success; a failing page of the
secondary path is swallowed, the loop breaks, and the items accumulated
before the failure (none, when the first page fails) are returned as a
successful — possibly empty — result.  A successful primary path never
falls back. -/
theorem C5_fallback_once_swallow_secondary (gmsg smsg : String)
    (items acc : List ProjectItem)
    (pages rest : List (Except String (List ProjectItem))) :
    fetchProjectItems (Except.ok items) pages = Except.ok items
    ∧ fetchProjectItems (Except.error gmsg) pages = Except.ok (fetchIssuesByLabel pages)
    ∧ searchLoop (Except.error smsg :: rest) acc = acc
    ∧ fetchIssuesByLabel (Except.error smsg :: rest) = [] :=
  ⟨rfl, rfl, rfl, rfl⟩

/-- C9: a tool-call request whose operation name is not one of the five
defined tools produces a result whose single content block is the text
`Error: Unknown tool: <name>` with the `isError` flag set; any error
thrown inside a known tool's branch is likewise converted to an
error-flagged text block.  `callToolHandler` is a total function into
`ToolResponse`, so no exception crosses the tool boundary. -/
theorem C9_dispatch_error_boundary (impl : String → Except String ToolResponse)
    (name : String) :
    (name ∉ knownToolNames →
      callToolHandler impl name =
        { content := [ContentBlock.text ("Error: Unknown tool: " ++ name)], isError := true })
    ∧ (name ∈ knownToolNames → ∀ msg : String, impl name = Except.error msg →
      callToolHandler impl name =
        { content := [ContentBlock.text ("Error: " ++ msg)], isError := true })
    ∧ (name ∈ knownToolNames → ∀ r : ToolResponse, impl name = Except.ok r →
      callToolHandler impl name = r) := by
  refine ⟨?_, ?_, ?_⟩
  · intro hnot
    unfold callToolHandler
    rw [if_neg hnot]
    rfl
  · intro hmem msg himpl
    unfold callToolHandler
    rw [if_pos hmem, himpl]
  · intro hmem r himpl
    unfold callToolHandler
    rw [if_pos hmem, himpl]

/-- Witness for C9: the unknown-name branch at a concrete name and the
thrown-error branch at a concrete failing tool oracle. -/
theorem C9_dispatch_witness :
    "delete_everything" ∉ knownToolNames
    ∧ callToolHandler throwingImpl "delete_everything" =
        { content := [ContentBlock.text "Error: Unknown tool: delete_everything"], isError := true }
    ∧ "get_team_status" ∈ knownToolNames
    ∧ throwingImpl "get_team_status" = Except.error "upstream exploded"
    ∧ callToolHandler throwingImpl "get_team_status" =
        { content := [ContentBlock.text "Error: upstream exploded"], isError := true } :=
  ⟨by decide, (C9_dispatch_error_boundary throwingImpl "delete_everything").1 (by decide),
   by decide, rfl,
   (C9_dispatch_error_boundary throwingImpl "get_team_status").2.1 (by decide)
     "upstream exploded" rfl⟩

/-! ## Calendar-grid projection -/

/-- C7: an event whose `endDate` is null or equal to its `startDate` at
exact instant equality is single-day: it is filed under exactly the day
key of its start date, and only when that date lies in the target month —
the scenario event on 2025-09-15 appears only under "2025-09-15" for
September and under no key at all for October. -/
theorem C7_single_day_placement (cur : Int) (ev : CalendarEvent) (s : Int)
    (hs : ev.startDate = some (JSDate.valid s))
    (he : ev.endDate = none ∨ ev.endDate = some (JSDate.valid s)) :
    eventDateKeys cur ev
      = (if sameMonthD (JSDate.valid s) cur then [dayKey (dayNumOf s)] else [])
    ∧ eventDateKeys (civilMs 2025 9 1) septemberSingleEvent = ["2025-09-15"]
    ∧ eventDateKeys (civilMs 2025 9 1) septemberSameEndEvent = ["2025-09-15"]
    ∧ eventDateKeys (civilMs 2025 10 1) septemberSingleEvent = [] := by
  refine ⟨?_, by decide, by decide, by decide⟩
  unfold eventDateKeys
  rcases he with he | he
  · rw [he, hs]
  · rw [he, hs]
    have hne : jsTimeNe (JSDate.valid s) (JSDate.valid s) = false := by
      simp [jsTimeNe, JSDate.toNum]
    dsimp only
    rw [hne]
    simp only [Bool.false_eq_true, if_false]

/-- Witness for C7: the single-day characterization applied to the
concrete event on 2025-09-15 for September 2025. -/
theorem C7_single_day_witness :
    septemberSingleEvent.startDate = some (JSDate.valid (civilMs 2025 9 15))
    ∧ septemberSingleEvent.endDate = none
    ∧ eventDateKeys (civilMs 2025 9 1) septemberSingleEvent
        = (if sameMonthD (JSDate.valid (civilMs 2025 9 15)) (civilMs 2025 9 1)
           then [dayKey (dayNumOf (civilMs 2025 9 15))] else []) :=
  ⟨rfl, rfl,
   (C7_single_day_placement (civilMs 2025 9 1) septemberSingleEvent (civilMs 2025 9 15)
     rfl (Or.inl rfl)).1⟩

lemma startOfMonthMs_mul (cur : Int) :
    startOfMonthMs cur = monthFirstDay cur * 86400000 := by
  unfold monthFirstDay
  unfold startOfMonthMs
  dsimp only
  generalize daysFromCivil _ _ 1 = d
  unfold dayNumOf msPerDay
  omega

lemma endOfMonthMs_mul (cur : Int) :
    endOfMonthMs cur = monthLastDay cur * 86400000 + 86399999 := by
  unfold monthLastDay
  unfold endOfMonthMs
  dsimp only
  generalize daysFromCivil _ _ _ = d
  unfold dayNumOf msPerDay
  omega

lemma startOfMonth_le_endOfMonth (cur : Int) :
    startOfMonthMs cur ≤ endOfMonthMs cur := by
  unfold startOfMonthMs endOfMonthMs
  dsimp only
  generalize civilFromDays (dayNumOf cur) = c
  have hd : 1 ≤ daysInMonth c.1 c.2.1 := by
    unfold daysInMonth
    split
    · split <;> omega
    · split <;> omega
  have hlin : daysFromCivil c.1 c.2.1 (daysInMonth c.1 c.2.1)
      = daysFromCivil c.1 c.2.1 1 + (daysInMonth c.1 c.2.1 - 1) := by
    unfold daysFromCivil
    dsimp only
    omega
  rw [hlin]
  unfold msPerDay
  omega

lemma dayRange_nil {lo hi : Int} (h : hi < lo) : dayRange lo hi = [] := by
  unfold dayRange
  rw [Int.toNat_of_nonpos (by omega)]
  rfl

lemma eventDateKeys_multiday (cur : Int) (ev : CalendarEvent) (s e : Int)
    (hs : ev.startDate = some (JSDate.valid s))
    (he : ev.endDate = some (JSDate.valid e))
    (hne : s ≠ e) (hle : s ≤ e) :
    eventDateKeys cur ev
      = (dayRange (max (dayNumOf s) (monthFirstDay cur))
          (min (dayNumOf e) (monthLastDay cur))).map dayKey := by
  have hMS := startOfMonthMs_mul cur
  have hME := endOfMonthMs_mul cur
  have hm2 : monthFirstDay cur * 86400000 ≤ monthLastDay cur * 86400000 + 86399999 := by
    rw [← hMS, ← hME]
    exact startOfMonth_le_endOfMonth cur
  have hds : dayNumOf s = s / 86400000 := rfl
  have hde : dayNumOf e = e / 86400000 := rfl
  have hD0 : monthFirstDay cur = startOfMonthMs cur / 86400000 := rfl
  have hD1 : monthLastDay cur = endOfMonthMs cur / 86400000 := rfl
  unfold eventDateKeys
  rw [he, hs]
  have htne : jsTimeNe (JSDate.valid s) (JSDate.valid e) = true := by
    simp [jsTimeNe, JSDate.toNum]
    exact hne
  dsimp only
  rw [htne]
  simp only [if_true]
  by_cases hgt : startOfMonthMs cur < s
  · have hb1 : jsGtD (JSDate.valid s) (JSDate.valid (startOfMonthMs cur)) = true := by
      simp [jsGtD, JSDate.toNum]
      exact hgt
    rw [hb1]
    simp only [if_true]
    have hmax : max (dayNumOf s) (monthFirstDay cur) = dayNumOf s := by
      rw [hds, hD0, hMS]; omega
    by_cases hlt : e < endOfMonthMs cur
    · have hb2 : jsLtD (JSDate.valid e) (JSDate.valid (endOfMonthMs cur)) = true := by
        simp [jsLtD, JSDate.toNum]
        exact hlt
      rw [hb2]
      simp only [if_true]
      have hmin : min (dayNumOf e) (monthLastDay cur) = dayNumOf e := by
        rw [hde, hD1, hME]; omega
      have hguard1 : jsLeD (JSDate.valid s) (JSDate.valid (endOfMonthMs cur)) = true := by
        simp [jsLeD, JSDate.toNum]
        omega
      have hguard2 : jsGeD (JSDate.valid e) (JSDate.valid (startOfMonthMs cur)) = true := by
        simp [jsGeD, JSDate.toNum]
        omega
      rw [hguard1, hguard2]
      simp only [Bool.and_self, if_true]
      rw [hmax, hmin]
      rfl
    · have hb2 : jsLtD (JSDate.valid e) (JSDate.valid (endOfMonthMs cur)) = false := by
        simp [jsLtD, JSDate.toNum]
        omega
      rw [hb2]
      simp only [Bool.false_eq_true, if_false]
      have hmin : min (dayNumOf e) (monthLastDay cur) = monthLastDay cur := by
        rw [hde, hD1, hME]; omega
      by_cases hg1 : s ≤ endOfMonthMs cur
      · have hguard1 : jsLeD (JSDate.valid s) (JSDate.valid (endOfMonthMs cur)) = true := by
          simp [jsLeD, JSDate.toNum]
          exact hg1
        have hguard2 : jsGeD (JSDate.valid (endOfMonthMs cur)) (JSDate.valid (startOfMonthMs cur)) = true := by
          simp [jsGeD, JSDate.toNum]
          rw [hMS, hME]
          omega
        rw [hguard1, hguard2]
        simp only [Bool.and_self, if_true]
        rw [hmax, hmin]
        rfl
      · have hguard1 : jsLeD (JSDate.valid s) (JSDate.valid (endOfMonthMs cur)) = false := by
          simp [jsLeD, JSDate.toNum]
          omega
        rw [hguard1]
        simp only [Bool.false_and, Bool.false_eq_true, if_false]
        rw [hmax, hmin]
        rw [dayRange_nil (by rw [hds, hD1, hME] at *; omega), List.map_nil]
  · have hb1 : jsGtD (JSDate.valid s) (JSDate.valid (startOfMonthMs cur)) = false := by
      simp [jsGtD, JSDate.toNum]
      omega
    rw [hb1]
    simp only [Bool.false_eq_true, if_false]
    have hmax : max (dayNumOf s) (monthFirstDay cur) = monthFirstDay cur := by
      rw [hds, hD0, hMS]; omega
    by_cases hlt : e < endOfMonthMs cur
    · have hb2 : jsLtD (JSDate.valid e) (JSDate.valid (endOfMonthMs cur)) = true := by
        simp [jsLtD, JSDate.toNum]
        exact hlt
      rw [hb2]
      simp only [if_true]
      have hmin : min (dayNumOf e) (monthLastDay cur) = dayNumOf e := by
        rw [hde, hD1, hME]; omega
      by_cases hg2 : startOfMonthMs cur ≤ e
      · have hguard1 : jsLeD (JSDate.valid (startOfMonthMs cur)) (JSDate.valid (endOfMonthMs cur)) = true := by
          simp [jsLeD, JSDate.toNum]
          rw [hMS, hME]
          omega
        have hguard2 : jsGeD (JSDate.valid e) (JSDate.valid (startOfMonthMs cur)) = true := by
          simp [jsGeD, JSDate.toNum]
          exact hg2
        rw [hguard1, hguard2]
        simp only [Bool.and_self, if_true]
        rw [hmax, hmin]
        rfl
      · have hguard2 : jsGeD (JSDate.valid e) (JSDate.valid (startOfMonthMs cur)) = false := by
          simp [jsGeD, JSDate.toNum]
          omega
        rw [hguard2]
        simp only [Bool.and_false, Bool.false_eq_true, if_false]
        rw [hmax, hmin]
        rw [dayRange_nil (by rw [hde, hD0, hMS] at *; omega), List.map_nil]
    · have hb2 : jsLtD (JSDate.valid e) (JSDate.valid (endOfMonthMs cur)) = false := by
        simp [jsLtD, JSDate.toNum]
        omega
      rw [hb2]
      simp only [Bool.false_eq_true, if_false]
      have hmin : min (dayNumOf e) (monthLastDay cur) = monthLastDay cur := by
        rw [hde, hD1, hME]; omega
      have hguard1 : jsLeD (JSDate.valid (startOfMonthMs cur)) (JSDate.valid (endOfMonthMs cur)) = true := by
        simp [jsLeD, JSDate.toNum]
        rw [hMS, hME]
        omega
      have hguard2 : jsGeD (JSDate.valid (endOfMonthMs cur)) (JSDate.valid (startOfMonthMs cur)) = true := by
        simp [jsGeD, JSDate.toNum]
        rw [hMS, hME]
        omega
      rw [hguard1, hguard2]
      simp only [Bool.and_self, if_true]
      rw [hmax, hmin]
      rfl

/-- C6: a multi-day event (distinct end instant) is clipped to the
month's inclusive day bounds and filed under every day key of the clipped
inclusive range; it is skipped entirely (no keys) when it does not
overlap the month.  The scenario event 2025-08-30..2025-09-05 projected
onto September 2025 appears under exactly the keys 2025-09-01 through
2025-09-05, both as its key list and in the `eventsByDate` mapping. -/
theorem C6_multiday_clipped_projection (cur : Int) (ev : CalendarEvent) (s e : Int)
    (hs : ev.startDate = some (JSDate.valid s))
    (he : ev.endDate = some (JSDate.valid e))
    (hne : s ≠ e) (hle : s ≤ e) :
    eventDateKeys cur ev
      = (dayRange (max (dayNumOf s) (monthFirstDay cur))
          (min (dayNumOf e) (monthLastDay cur))).map dayKey
    ∧ ((dayNumOf e < monthFirstDay cur ∨ monthLastDay cur < dayNumOf s) →
        eventDateKeys cur ev = [])
    ∧ eventDateKeys (civilMs 2025 9 15) septemberSpanEvent
        = ["2025-09-01", "2025-09-02", "2025-09-03", "2025-09-04", "2025-09-05"]
    ∧ eventsByDate [septemberSpanEvent] (civilMs 2025 9 15)
        = [("2025-09-01", [septemberSpanEvent]), ("2025-09-02", [septemberSpanEvent]),
           ("2025-09-03", [septemberSpanEvent]), ("2025-09-04", [septemberSpanEvent]),
           ("2025-09-05", [septemberSpanEvent])] := by
  have hmain := eventDateKeys_multiday cur ev s e hs he hne hle
  refine ⟨hmain, ?_, by decide, by decide⟩
  intro hcase
  rw [hmain]
  rcases hcase with h | h
  · rw [dayRange_nil (by omega), List.map_nil]
  · rw [dayRange_nil (by omega), List.map_nil]

/-- Witness for C6: the clipping characterization applied to the concrete
August-to-September event. -/
theorem C6_multiday_witness :
    septemberSpanEvent.startDate = some (JSDate.valid (civilMs 2025 8 30))
    ∧ septemberSpanEvent.endDate = some (JSDate.valid (civilMs 2025 9 5))
    ∧ eventDateKeys (civilMs 2025 9 15) septemberSpanEvent
        = (dayRange (max (dayNumOf (civilMs 2025 8 30)) (monthFirstDay (civilMs 2025 9 15)))
            (min (dayNumOf (civilMs 2025 9 5)) (monthLastDay (civilMs 2025 9 15)))).map dayKey :=
  ⟨rfl, rfl,
   (C6_multiday_clipped_projection (civilMs 2025 9 15) septemberSpanEvent
     (civilMs 2025 8 30) (civilMs 2025 9 5) rfl rfl (by decide) (by decide)).1⟩
